import Mathlib

/-!
Shallow embedding of `drivers/staging/android/ion/ion_system_heap.c`
(the ION "system heap" allocator) together with the simpler fully
contiguous variant, and proofs of the specification's claims about it.

The external page-pool collaborator (`ion_page_pool_*`, implemented in
`ion_page_pool.c`, which is not part of this subsystem) is modelled from
the specification's contract for it; every definition whose doc comment
starts with `Modelled from the spec:` is of that kind.  Everything else
is translated directly from `ion_system_heap.c`.

Pages are modelled by abstract identifiers (`Nat`), handed out by a
counter in the heap state, so that leak/double-free accounting can be
stated.  Failures of the auxiliary kernel allocations (the scatter-gather
descriptor table) are modelled by an explicit `tableAllocOk` oracle
argument; pool exhaustion is modelled by the pool's resident count
reaching zero.
-/

namespace IonHeap

/-- The base page size configuration constant (`PAGE_SHIFT`). -/
def PAGE_SHIFT : Nat := 12

/-- `PAGE_SIZE = 1 << PAGE_SHIFT`. -/
def PAGE_SIZE : Nat := 1 <<< PAGE_SHIFT

/-- `PAGE_ALIGN(size)`: `size` rounded up to a page boundary. -/
def PAGE_ALIGN (size : Nat) : Nat := ((size + PAGE_SIZE - 1) / PAGE_SIZE) * PAGE_SIZE

/-- `static const unsigned int orders[] = {8, 4, 0};` -/
def orders : List Nat := [8, 4, 0]

/-- `num_orders = ARRAY_SIZE(orders)`. -/
def num_orders : Nat := orders.length

/-- `order_to_index`: linear scan of `orders`; the `BUG()` branch that is
reached when the order is not in the table is modelled as `none`. -/
def order_to_index (order : Nat) : Option Nat :=
  orders.findIdx? (fun o => o = order)

/-- `order_to_size(order) = PAGE_SIZE << order`. -/
def order_to_size (order : Nat) : Nat := PAGE_SIZE <<< order

/-- Helper for `fls`: binary length of `n`, with a structural bound so the
kernel can evaluate it. -/
def flsAux : Nat → Nat → Nat
  | 0, _ => 0
  | b + 1, n => if n = 0 then 0 else flsAux b (n / 2) + 1

/-- `fls` (find last set): number of bits needed to represent `n`. -/
def fls (n : Nat) : Nat := flsAux n n

/-- The kernel's `get_order(len)`: smallest power-of-two page-run order
covering `len` bytes (generic implementation `fls((len - 1) >> PAGE_SHIFT)`). -/
def get_order (len : Nat) : Nat := fls ((len - 1) >>> PAGE_SHIFT)

/-- State of the two pool banks of `struct ion_system_heap`
(`uncached_pools` / `cached_pools`, counts of resident pages per
size-class index) together with the supply of fresh abstract page ids. -/
structure HeapState where
  uncached_pools : List Nat
  cached_pools : List Nat
  nextId : Nat
deriving DecidableEq

/-- The pool bank selected by the buffer's cacheability flag. -/
def bank (st : HeapState) (cached : Bool) : List Nat :=
  if cached then st.cached_pools else st.uncached_pools

/-- Replace the pool bank selected by the cacheability flag. -/
def setBank (st : HeapState) (cached : Bool) (l : List Nat) : HeapState :=
  if cached then { st with cached_pools := l } else { st with uncached_pools := l }

/-- Resident page count of one pool. -/
def poolCount (st : HeapState) (cached : Bool) (idx : Nat) : Nat :=
  (bank st cached).getD idx 0

/-- Overwrite the resident page count of one pool. -/
def setPoolCount (st : HeapState) (cached : Bool) (idx c : Nat) : HeapState :=
  setBank st cached ((bank st cached).set idx c)

/-- Modelled from the spec: the external PagePool's `allocate-one-page`
(`ion_page_pool_alloc`, `ion_page_pool.c` is outside this subsystem).
Yields a page exactly when the pool has a resident page; the page is
identified by a fresh id. -/
def ion_page_pool_alloc (st : HeapState) (cached : Bool) (idx : Nat) :
    Option (Nat × HeapState) :=
  if (bank st cached).getD idx 0 = 0 then none
  else some (st.nextId,
    { setBank st cached ((bank st cached).set idx ((bank st cached).getD idx 0 - 1)) with
        nextId := st.nextId + 1 })

/-- Modelled from the spec: the external PagePool's `return-one-page`
(`ion_page_pool_free`). -/
def ion_page_pool_free (st : HeapState) (cached : Bool) (idx : Nat) : HeapState :=
  let counts := bank st cached
  setBank st cached (counts.set idx (counts.getD idx 0 + 1))

/-- `alloc_buffer_page`: select the pool by `(cacheability, order)` and ask
it for one page run. -/
def alloc_buffer_page (st : HeapState) (cached : Bool) (order : Nat) :
    Option (Nat × HeapState) :=
  match order_to_index order with
  | none => none
  | some idx => ion_page_pool_alloc st cached idx

/-- Where `free_buffer_page` sent one page run: either back into a pool of
the given bank, or straight to the general-purpose allocator
(`__free_pages`), or the unreachable `BUG()` branch of `order_to_index`. -/
inductive FreeTarget where
  | pool (cached : Bool) (idx : Nat)
  | direct
  | bug
deriving DecidableEq

/-- One release action recorded on a free / rollback path. -/
structure Release where
  pid : Nat
  order : Nat
  target : FreeTarget
deriving DecidableEq

/-- `free_buffer_page`: a shrinker-originated free bypasses the pools and
goes straight to the general allocator; otherwise the run re-enters the
pool matching `(order, cacheability)`. -/
def free_buffer_page (st : HeapState) (shrinkerFlag cached : Bool)
    (pid order : Nat) : HeapState × Release :=
  if shrinkerFlag then (st, ⟨pid, order, FreeTarget.direct⟩)
  else
    match order_to_index order with
    | some idx => (ion_page_pool_free st cached idx, ⟨pid, order, FreeTarget.pool cached idx⟩)
    | none => (st, ⟨pid, order, FreeTarget.bug⟩)

/-- `struct page_info`: one acquired segment (page run) — the page's id and
its order. -/
structure Seg where
  pid : Nat
  order : Nat
deriving DecidableEq

/-- The scan of `alloc_largest_available` over the `orders` table: skip a
class whose byte size exceeds the remaining size or whose order exceeds
`max_order`; take the first remaining class whose pool yields a page. -/
def alloc_largest_aux (st : HeapState) (cached : Bool) (size max_order : Nat) :
    List Nat → Option (Seg × HeapState)
  | [] => none
  | o :: rest =>
    if size < order_to_size o then alloc_largest_aux st cached size max_order rest
    else if max_order < o then alloc_largest_aux st cached size max_order rest
    else
      match alloc_buffer_page st cached o with
      | none => alloc_largest_aux st cached size max_order rest
      | some (pid, st') => some (⟨pid, o⟩, st')

/-- `alloc_largest_available`. -/
def alloc_largest_available (st : HeapState) (cached : Bool) (size max_order : Nat) :
    Option (Seg × HeapState) :=
  alloc_largest_aux st cached size max_order orders

/-- Result of the assembly loop of `ion_system_heap_allocate`: success with
the acquired segments, failure (`goto err`) with the partially acquired
segments, or fuel exhaustion (an artifact of the bounded model, proved
unreachable for sufficient fuel). -/
inductive LoopRes where
  | ok (segs : List Seg) (st : HeapState)
  | fail (acquired : List Seg) (st : HeapState)
  | fuelOut (acquired : List Seg) (st : HeapState)
deriving DecidableEq

/-- The acquired segment list of a loop result. -/
def resAcquired : LoopRes → List Seg
  | LoopRes.ok s _ => s
  | LoopRes.fail s _ => s
  | LoopRes.fuelOut s _ => s

/-- Whether a loop result is the fuel-exhaustion marker. -/
def isFuelOut : LoopRes → Bool
  | LoopRes.fuelOut _ _ => true
  | _ => false

/-- The `while (size_remaining > 0)` assembly loop of
`ion_system_heap_allocate`: acquire the largest available run, append it
to the tail of the segment list, subtract its size, and lower `max_order`
to its order. -/
def allocLoop (cached : Bool) (fuel size_remaining max_order : Nat)
    (st : HeapState) (acc : List Seg) : LoopRes :=
  if size_remaining = 0 then LoopRes.ok acc st
  else
    match fuel with
    | 0 => LoopRes.fuelOut acc st
    | fuel' + 1 =>
      match alloc_largest_available st cached size_remaining max_order with
      | none => LoopRes.fail acc st
      | some (info, st') =>
        allocLoop cached fuel' (size_remaining - order_to_size info.order)
          info.order st' (acc ++ [info])

/-- The `err:` rollback loop of `ion_system_heap_allocate`: walk the list of
acquired segments once and hand each to `free_buffer_page`. -/
def rollback_loop (st : HeapState) (shrinkerFlag cached : Bool) :
    List Seg → HeapState × List Release
  | [] => (st, [])
  | s :: rest =>
    let p := free_buffer_page st shrinkerFlag cached s.pid s.order
    let q := rollback_loop p.1 shrinkerFlag cached rest
    (q.1, p.2 :: q.2)

/-- Outcome of `ion_system_heap_allocate`: success with the buffer's
segments (`-EINVAL` and `-ENOMEM` are the `invalid` and `nomem`
constructors; `nomem` records the segments that had been acquired and the
release actions of the rollback). -/
inductive AllocOutcome where
  | ok (segs : List Seg) (st : HeapState)
  | invalid (st : HeapState)
  | nomem (acquired : List Seg) (releases : List Release) (st : HeapState)
deriving DecidableEq

/-- Whether an allocation outcome is the `-EINVAL` error. -/
def isInvalid : AllocOutcome → Bool
  | AllocOutcome.invalid _ => true
  | _ => false

/-- `ion_system_heap_allocate`.  `totalram_pages` is the external total
system memory in pages; `tableAllocOk` models whether the descriptor-table
allocations (`kmalloc` of the `sg_table` / `sg_alloc_table`) succeed. -/
def ion_system_heap_allocate (totalram_pages : Nat) (st : HeapState)
    (size align : Nat) (cached shrinkerFlag tableAllocOk : Bool) : AllocOutcome :=
  if PAGE_SIZE < align then AllocOutcome.invalid st
  else if totalram_pages / 2 < size / PAGE_SIZE then AllocOutcome.nomem [] [] st
  else
    match allocLoop cached (PAGE_ALIGN size / PAGE_SIZE) (PAGE_ALIGN size)
        (orders.headD 0) st [] with
    | LoopRes.ok segs st' =>
      if tableAllocOk then AllocOutcome.ok segs st'
      else
        let r := rollback_loop st' shrinkerFlag cached segs
        AllocOutcome.nomem segs r.2 r.1
    | LoopRes.fail acq st' =>
      let r := rollback_loop st' shrinkerFlag cached acq
      AllocOutcome.nomem acq r.2 r.1
    | LoopRes.fuelOut acq st' =>
      let r := rollback_loop st' shrinkerFlag cached acq
      AllocOutcome.nomem acq r.2 r.1

/-- One scatterlist entry of an already-assembled buffer: the page run's id
and its byte length (`sg->length`). -/
structure BufSeg where
  pid : Nat
  len : Nat
deriving DecidableEq

/-- A buffer handed to `ion_system_heap_free`: its scatterlist, its
cacheability, and whether `ION_PRIV_FLAG_SHRINKER_FREE` is set in
`private_flags`. -/
structure Buffer where
  segs : List BufSeg
  cached : Bool
  shrinkerFlag : Bool
deriving DecidableEq

/-- The `for_each_sg` loop of `ion_system_heap_free`: each entry is handed
to `free_buffer_page` at order `get_order(sg->length)`. -/
def free_loop (st : HeapState) (shrinkerFlag cached : Bool) :
    List BufSeg → HeapState × List Release
  | [] => (st, [])
  | s :: rest =>
    let p := free_buffer_page st shrinkerFlag cached s.pid (get_order s.len)
    let q := free_loop p.1 shrinkerFlag cached rest
    (q.1, p.2 :: q.2)

/-- Result of `ion_system_heap_free`: whether the buffer's pages were
zeroed (`ion_heap_buffer_zero`), the new pool state, and the release
actions taken. -/
structure FreeResult where
  zeroed : Bool
  st : HeapState
  releases : List Release
deriving DecidableEq

/-- `ion_system_heap_free`: zero the buffer unless it carries the
shrinker-free flag, then return every page run via `free_buffer_page`. -/
def ion_system_heap_free (st : HeapState) (b : Buffer) : FreeResult :=
  let zeroed := !b.shrinkerFlag
  let p := free_loop st b.shrinkerFlag b.cached b.segs
  ⟨zeroed, p.1, p.2⟩

/-- Modelled from the spec: the external PagePool's shrink-by-count
(`ion_page_pool_shrink`).  With request `0` it reports the resident count
and frees nothing; otherwise it releases up to the requested number of
resident pages and returns the number released.  Returns
`(returned value, new resident count)`. -/
def ion_page_pool_shrink (count nr_to_scan : Nat) : Nat × Nat :=
  if nr_to_scan = 0 then (count, count)
  else (min nr_to_scan count, count - min nr_to_scan count)

/-- One pool-shrink request issued by the drain phase of
`ion_system_heap_shrink`: which pool, how much was requested
(`nr_to_scan` argument), and how much it freed. -/
structure ShrinkCall where
  cached : Bool
  idx : Nat
  requested : Nat
  freed : Nat
deriving DecidableEq

/-- One `ion_page_pool_shrink` call applied to the heap state: returns the
updated state and the number of pages the pool freed. -/
def shrinkPoolStep (nr_to_scan : Nat) (st : HeapState) (cached : Bool) (i : Nat) :
    HeapState × Nat :=
  (setPoolCount st cached i (ion_page_pool_shrink (poolCount st cached i) nr_to_scan).2,
   (ion_page_pool_shrink (poolCount st cached i) nr_to_scan).1)

/-- The drain loop of `ion_system_heap_shrink`: for each size-class index,
shrink the uncached pool then the cached pool, each asked for the full
`nr_to_scan`, stopping as soon as `nr_freed >= nr_to_scan`. -/
def shrinkDrain (nr_to_scan : Nat) :
    List Nat → HeapState → Nat → List ShrinkCall → HeapState × Nat × List ShrinkCall
  | [], st, nr_freed, tr => (st, nr_freed, tr)
  | i :: rest, st, nr_freed, tr =>
    if nr_to_scan ≤ nr_freed + (shrinkPoolStep nr_to_scan st false i).2 then
      ((shrinkPoolStep nr_to_scan st false i).1,
       nr_freed + (shrinkPoolStep nr_to_scan st false i).2,
       tr ++ [⟨false, i, nr_to_scan, (shrinkPoolStep nr_to_scan st false i).2⟩])
    else if nr_to_scan ≤ nr_freed + (shrinkPoolStep nr_to_scan st false i).2 +
        (shrinkPoolStep nr_to_scan (shrinkPoolStep nr_to_scan st false i).1 true i).2 then
      ((shrinkPoolStep nr_to_scan (shrinkPoolStep nr_to_scan st false i).1 true i).1,
       nr_freed + (shrinkPoolStep nr_to_scan st false i).2 +
         (shrinkPoolStep nr_to_scan (shrinkPoolStep nr_to_scan st false i).1 true i).2,
       tr ++ [⟨false, i, nr_to_scan, (shrinkPoolStep nr_to_scan st false i).2⟩,
              ⟨true, i, nr_to_scan,
                (shrinkPoolStep nr_to_scan (shrinkPoolStep nr_to_scan st false i).1 true i).2⟩])
    else
      shrinkDrain nr_to_scan rest
        (shrinkPoolStep nr_to_scan (shrinkPoolStep nr_to_scan st false i).1 true i).1
        (nr_freed + (shrinkPoolStep nr_to_scan st false i).2 +
          (shrinkPoolStep nr_to_scan (shrinkPoolStep nr_to_scan st false i).1 true i).2)
        (tr ++ [⟨false, i, nr_to_scan, (shrinkPoolStep nr_to_scan st false i).2⟩,
                ⟨true, i, nr_to_scan,
                  (shrinkPoolStep nr_to_scan (shrinkPoolStep nr_to_scan st false i).1 true i).2⟩])

/-- The final inventory pass of `ion_system_heap_shrink` (`end:` label):
ask every pool in both banks for its resident count via a zero-request
shrink and sum the answers. -/
def shrinkInventory (st : HeapState) : Nat :=
  ((List.range num_orders).map
    (fun i => (ion_page_pool_shrink (poolCount st false i) 0).1 +
              (ion_page_pool_shrink (poolCount st true i) 0).1)).sum

/-- Total pages resident across every pool of both banks (the spec-side
notion of "resident count", stated directly from the pool counts). -/
def totalResident (st : HeapState) : Nat :=
  ((List.range num_orders).map
    (fun i => poolCount st false i + poolCount st true i)).sum

/-- `ion_system_heap_shrink`: returns `(returned value, new state, drain
trace)`.  With `nr_to_scan = 0` the drain phase is skipped entirely. -/
def ion_system_heap_shrink (st : HeapState) (nr_to_scan : Nat) :
    Nat × HeapState × List ShrinkCall :=
  if nr_to_scan = 0 then (shrinkInventory st, st, [])
  else
    let d := shrinkDrain nr_to_scan (List.range num_orders) st 0 []
    (shrinkInventory d.1, d.1, d.2.2)

/-- Outcome of `ion_system_contig_heap_allocate`: on success, the byte
lengths of the descriptor's segments and the number of pages of the
obtained power-of-two run released back to the general allocator by the
trim loop; on `-ENOMEM`, the number of retained-prefix pages released by
the `out:` rollback. -/
inductive ContigOutcome where
  | ok (seg_lens : List Nat) (trimmedToSystem : Nat)
  | invalid
  | nomem (freedPages : Nat)
deriving DecidableEq

/-- `ion_system_contig_heap_allocate`: reject alignment above the
power-of-two run size implied by `len`; obtain one contiguous run of
`2 ^ get_order len` pages (`pageAllocOk` models `alloc_pages` success),
split it, free every page beyond `PAGE_ALIGN len`, and describe the
retained prefix as a single scatterlist entry of `PAGE_ALIGN len` bytes
(`tableAllocOk` models the descriptor-table allocations). -/
def ion_system_contig_heap_allocate (len align : Nat)
    (pageAllocOk tableAllocOk : Bool) : ContigOutcome :=
  let order := get_order len
  if PAGE_SIZE <<< order < align then ContigOutcome.invalid
  else if !pageAllocOk then ContigOutcome.nomem 0
  else
    let lenA := PAGE_ALIGN len
    let trimmed := (1 <<< order) - (lenA >>> PAGE_SHIFT)
    if !tableAllocOk then ContigOutcome.nomem (lenA >>> PAGE_SHIFT)
    else ContigOutcome.ok [lenA] trimmed

/-- The fixed order in which the drain phase visits the pools: size-class
index 0 (the largest class) first, uncached bank before cached bank at
each class. -/
def drainOrder : List (Bool × Nat) :=
  [(false, 0), (true, 0), (false, 1), (true, 1), (false, 2), (true, 2)]

/-- The pool-visit sequence induced by a list of size-class indices:
uncached then cached at each index. -/
def expandIdxs : List Nat → List (Bool × Nat)
  | [] => []
  | i :: rest => (false, i) :: (true, i) :: expandIdxs rest

/-- Checker for the claim "each pool is asked to release at most the
outstanding need (`target_count` minus the pages already freed in this
call)": walks a drain trace accumulating the freed count. -/
def boundedByNeed (target : Nat) : Nat → List ShrinkCall → Bool
  | _, [] => true
  | freedSoFar, c :: rest =>
    decide (c.requested ≤ target - freedSoFar) && boundedByNeed target (freedSoFar + c.freed) rest

/-- Checker for "draining stops as soon as the cumulative freed count meets
or exceeds `target_count`": every recorded pool-shrink call was issued
while the cumulative freed count was still below the target. -/
def stopsAtTarget (target : Nat) : Nat → List ShrinkCall → Bool
  | _, [] => true
  | freedSoFar, c :: rest =>
    decide (freedSoFar < target) && stopsAtTarget target (freedSoFar + c.freed) rest

/-! ## Basic lemmas about the embedded operations -/

theorem PAGE_SIZE_le_order_to_size (o : Nat) : PAGE_SIZE ≤ order_to_size o := by
  have h : order_to_size o = PAGE_SIZE * 2 ^ o := by
    simp [order_to_size, Nat.shiftLeft_eq]
  rw [h]
  exact Nat.le_mul_of_pos_right PAGE_SIZE (Nat.pos_pow_of_pos o (by decide))

theorem order_to_index_isSome {o : Nat} (h : o ∈ orders) :
    (order_to_index o).isSome = true := by
  have h3 : o = 8 ∨ o = 4 ∨ o = 0 := by simpa [orders] using h
  rcases h3 with h3 | h3 | h3 <;> subst h3 <;> decide

theorem ion_page_pool_alloc_some {st : HeapState} {cached : Bool} {idx pid : Nat}
    {st' : HeapState} (h : ion_page_pool_alloc st cached idx = some (pid, st')) :
    pid = st.nextId ∧ st'.nextId = st.nextId + 1 := by
  unfold ion_page_pool_alloc at h
  split at h
  · exact absurd h (by simp)
  · simp only [Option.some.injEq, Prod.mk.injEq] at h
    obtain ⟨h1, h2⟩ := h
    subst h1
    subst h2
    exact ⟨rfl, rfl⟩

theorem alloc_buffer_page_some {st : HeapState} {cached : Bool} {o pid : Nat}
    {st' : HeapState} (h : alloc_buffer_page st cached o = some (pid, st')) :
    pid = st.nextId ∧ st'.nextId = st.nextId + 1 := by
  unfold alloc_buffer_page at h
  split at h
  · exact absurd h (by simp)
  · exact ion_page_pool_alloc_some h

theorem alloc_largest_aux_some {st : HeapState} {cached : Bool} {size maxO : Nat} :
    ∀ {l : List Nat} {seg : Seg} {st' : HeapState},
    alloc_largest_aux st cached size maxO l = some (seg, st') →
    seg.order ∈ l ∧ order_to_size seg.order ≤ size ∧ seg.order ≤ maxO ∧
      seg.pid = st.nextId ∧ st'.nextId = st.nextId + 1 := by
  intro l
  induction l with
  | nil => intro seg st' h; exact absurd h (by simp [alloc_largest_aux])
  | cons o rest ih =>
    intro seg st' h
    unfold alloc_largest_aux at h
    by_cases h1 : size < order_to_size o
    · rw [if_pos h1] at h
      obtain ⟨a, b, c, d, e⟩ := ih h
      exact ⟨List.mem_cons_of_mem _ a, b, c, d, e⟩
    · rw [if_neg h1] at h
      by_cases h2 : maxO < o
      · rw [if_pos h2] at h
        obtain ⟨a, b, c, d, e⟩ := ih h
        exact ⟨List.mem_cons_of_mem _ a, b, c, d, e⟩
      · rw [if_neg h2] at h
        cases hpage : alloc_buffer_page st cached o with
        | none =>
          rw [hpage] at h
          obtain ⟨a, b, c, d, e⟩ := ih h
          exact ⟨List.mem_cons_of_mem _ a, b, c, d, e⟩
        | some p =>
          rw [hpage] at h
          obtain ⟨pid, st1⟩ := p
          simp only [Option.some.injEq, Prod.mk.injEq] at h
          obtain ⟨hseg, hst⟩ := h
          subst hst
          obtain ⟨hp, hn⟩ := alloc_buffer_page_some hpage
          subst hseg
          exact ⟨List.mem_cons_self o rest, Nat.le_of_not_lt h1,
            Nat.le_of_not_lt h2, hp, hn⟩

theorem alloc_largest_available_some {st : HeapState} {cached : Bool}
    {size maxO : Nat} {seg : Seg} {st' : HeapState}
    (h : alloc_largest_available st cached size maxO = some (seg, st')) :
    seg.order ∈ orders ∧ order_to_size seg.order ≤ size ∧ seg.order ≤ maxO ∧
      seg.pid = st.nextId ∧ st'.nextId = st.nextId + 1 :=
  alloc_largest_aux_some h

/-- The accumulator of the assembly loop is a pure prefix: running with
accumulator `acc` appends `acc` in front of the run with an empty one. -/
theorem allocLoop_acc (cached : Bool) (fuel : Nat) :
    ∀ (rem maxO : Nat) (st : HeapState) (acc : List Seg),
    allocLoop cached fuel rem maxO st acc =
      match allocLoop cached fuel rem maxO st [] with
      | LoopRes.ok s t => LoopRes.ok (acc ++ s) t
      | LoopRes.fail s t => LoopRes.fail (acc ++ s) t
      | LoopRes.fuelOut s t => LoopRes.fuelOut (acc ++ s) t := by
  induction fuel with
  | zero =>
    intro rem maxO st acc
    unfold allocLoop
    split
    · simp
    · simp
  | succ f ih =>
    intro rem maxO st acc
    unfold allocLoop
    split
    · simp
    · cases h : alloc_largest_available st cached rem maxO with
      | none => simp
      | some p =>
        obtain ⟨info, st'⟩ := p
        simp only
        rw [ih (rem - order_to_size info.order) info.order st' (acc ++ [info]),
            ih (rem - order_to_size info.order) info.order st' ([] ++ [info])]
        cases allocLoop cached f (rem - order_to_size info.order) info.order st' [] <;> simp

/-- Main invariant of the assembly loop (started with an empty segment
list): the acquired page ids are the consecutive fresh ids starting at
`st.nextId`; every acquired order is a configured size class and bounded
by `max_order`; the acquired orders are non-increasing; and on success
the acquired byte sizes sum exactly to the remaining size. -/
theorem allocLoop_inv (cached : Bool) (fuel : Nat) :
    ∀ (rem maxO : Nat) (st : HeapState),
    ((resAcquired (allocLoop cached fuel rem maxO st [])).map Seg.pid =
      List.range' st.nextId (resAcquired (allocLoop cached fuel rem maxO st [])).length) ∧
    (∀ s ∈ resAcquired (allocLoop cached fuel rem maxO st []),
        s.order ∈ orders ∧ s.order ≤ maxO) ∧
    List.Chain' (fun a b => b ≤ a)
      ((resAcquired (allocLoop cached fuel rem maxO st [])).map Seg.order) ∧
    (∀ (segs : List Seg) (st' : HeapState),
      allocLoop cached fuel rem maxO st [] = LoopRes.ok segs st' →
      (segs.map (fun s => order_to_size s.order)).sum = rem) := by
  induction fuel with
  | zero =>
    intro rem maxO st
    unfold allocLoop
    split
    · rename_i hrem
      refine ⟨by simp [resAcquired], by simp [resAcquired], by simp [resAcquired], ?_⟩
      intro segs st' hok
      simp only [LoopRes.ok.injEq] at hok
      obtain ⟨h1, _⟩ := hok
      subst h1
      simp [hrem]
    · exact ⟨by simp [resAcquired], by simp [resAcquired], by simp [resAcquired],
        fun segs st' hok => absurd hok (by simp)⟩
  | succ f ih =>
    intro rem maxO st
    unfold allocLoop
    split
    · rename_i hrem
      refine ⟨by simp [resAcquired], by simp [resAcquired], by simp [resAcquired], ?_⟩
      intro segs st' hok
      simp only [LoopRes.ok.injEq] at hok
      obtain ⟨h1, _⟩ := hok
      subst h1
      simp [hrem]
    · rename_i hrem
      cases hstep : alloc_largest_available st cached rem maxO with
      | none =>
        exact ⟨by simp [resAcquired], by simp [resAcquired], by simp [resAcquired],
          fun segs st' hok => absurd hok (by simp)⟩
      | some p =>
        obtain ⟨info, st1⟩ := p
        simp only [List.nil_append]
        obtain ⟨hord, hsz, hmax, hpid, hnext⟩ := alloc_largest_available_some hstep
        rw [allocLoop_acc cached f (rem - order_to_size info.order) info.order st1 [info]]
        obtain ⟨ihpid, ihord, ihchain, ihsum⟩ :=
          ih (rem - order_to_size info.order) info.order st1
        cases hrec : allocLoop cached f (rem - order_to_size info.order) info.order st1 [] with
        | ok s2 t2 =>
          rw [hrec] at ihpid ihord ihchain
          simp only [resAcquired] at ihpid ihord ihchain ⊢
          refine ⟨?_, ?_, ?_, ?_⟩
          · simp only [List.singleton_append, List.map_cons, List.length_cons, hpid,
              List.range'_succ, hnext] at ihpid ⊢
            rw [ihpid]
          · intro s hs
            rcases List.mem_cons.mp hs with h | h
            · subst h; exact ⟨hord, hmax⟩
            · obtain ⟨ha, hb⟩ := ihord s h
              exact ⟨ha, le_trans hb hmax⟩
          · simp only [List.singleton_append, List.map_cons]
            rw [List.chain'_cons']
            refine ⟨?_, ihchain⟩
            intro b hb
            cases hs2 : s2 with
            | nil => subst hs2; simp at hb
            | cons x xs =>
              subst hs2
              simp only [List.map_cons, List.head?_cons, Option.mem_def,
                Option.some.injEq] at hb
              subst hb
              exact (ihord x (List.mem_cons_self x xs)).2
          · intro segs st' hok
            simp only [LoopRes.ok.injEq] at hok
            obtain ⟨h1, _⟩ := hok
            subst h1
            have hsum2 := ihsum s2 t2 hrec
            simp only [List.singleton_append, List.map_cons, List.sum_cons, hsum2]
            omega
        | fail s2 t2 =>
          rw [hrec] at ihpid ihord ihchain
          simp only [resAcquired] at ihpid ihord ihchain ⊢
          refine ⟨?_, ?_, ?_, fun segs st' hok => absurd hok (by simp)⟩
          · simp only [List.singleton_append, List.map_cons, List.length_cons, hpid,
              List.range'_succ, hnext] at ihpid ⊢
            rw [ihpid]
          · intro s hs
            rcases List.mem_cons.mp hs with h | h
            · subst h; exact ⟨hord, hmax⟩
            · obtain ⟨ha, hb⟩ := ihord s h
              exact ⟨ha, le_trans hb hmax⟩
          · simp only [List.singleton_append, List.map_cons]
            rw [List.chain'_cons']
            refine ⟨?_, ihchain⟩
            intro b hb
            cases hs2 : s2 with
            | nil => subst hs2; simp at hb
            | cons x xs =>
              subst hs2
              simp only [List.map_cons, List.head?_cons, Option.mem_def,
                Option.some.injEq] at hb
              subst hb
              exact (ihord x (List.mem_cons_self x xs)).2
        | fuelOut s2 t2 =>
          rw [hrec] at ihpid ihord ihchain
          simp only [resAcquired] at ihpid ihord ihchain ⊢
          refine ⟨?_, ?_, ?_, fun segs st' hok => absurd hok (by simp)⟩
          · simp only [List.singleton_append, List.map_cons, List.length_cons, hpid,
              List.range'_succ, hnext] at ihpid ⊢
            rw [ihpid]
          · intro s hs
            rcases List.mem_cons.mp hs with h | h
            · subst h; exact ⟨hord, hmax⟩
            · obtain ⟨ha, hb⟩ := ihord s h
              exact ⟨ha, le_trans hb hmax⟩
          · simp only [List.singleton_append, List.map_cons]
            rw [List.chain'_cons']
            refine ⟨?_, ihchain⟩
            intro b hb
            cases hs2 : s2 with
            | nil => subst hs2; simp at hb
            | cons x xs =>
              subst hs2
              simp only [List.map_cons, List.head?_cons, Option.mem_def,
                Option.some.injEq] at hb
              subst hb
              exact (ihord x (List.mem_cons_self x xs)).2

/-- With fuel covering one page per step, the assembly loop never runs out
of fuel: every successful iteration consumes at least one page's worth of
the remaining size. -/
theorem allocLoop_no_fuelOut (cached : Bool) (fuel : Nat) :
    ∀ (rem maxO : Nat) (st : HeapState) (acc : List Seg),
    rem ≤ fuel * PAGE_SIZE →
    isFuelOut (allocLoop cached fuel rem maxO st acc) = false := by
  induction fuel with
  | zero =>
    intro rem maxO st acc hrem
    have h0 : rem = 0 := by omega
    unfold allocLoop
    rw [if_pos h0]
    rfl
  | succ f ih =>
    intro rem maxO st acc hrem
    unfold allocLoop
    split
    · rfl
    · cases hstep : alloc_largest_available st cached rem maxO with
      | none => rfl
      | some p =>
        obtain ⟨info, st1⟩ := p
        simp only
        apply ih
        have hP := PAGE_SIZE_le_order_to_size info.order
        have hmul : (f + 1) * PAGE_SIZE = f * PAGE_SIZE + PAGE_SIZE := Nat.succ_mul f PAGE_SIZE
        omega

/-- If some class in the scanned list passes both guards and its pool can
yield a page, the scan of `alloc_largest_available` does not fail. -/
theorem alloc_largest_aux_progress {st : HeapState} {cached : Bool} {size maxO : Nat} :
    ∀ {l : List Nat},
    (∃ o, o ∈ l ∧ order_to_size o ≤ size ∧ o ≤ maxO ∧ alloc_buffer_page st cached o ≠ none) →
    alloc_largest_aux st cached size maxO l ≠ none := by
  intro l
  induction l with
  | nil => rintro ⟨o, ho, -, -, -⟩; simp at ho
  | cons o' rest ih =>
    rintro ⟨o, ho, hsz, hmx, hpg⟩
    unfold alloc_largest_aux
    by_cases h1 : size < order_to_size o'
    · rw [if_pos h1]
      rcases List.mem_cons.mp ho with h | h
      · subst h; omega
      · exact ih ⟨o, h, hsz, hmx, hpg⟩
    · rw [if_neg h1]
      by_cases h2 : maxO < o'
      · rw [if_pos h2]
        rcases List.mem_cons.mp ho with h | h
        · subst h; omega
        · exact ih ⟨o, h, hsz, hmx, hpg⟩
      · rw [if_neg h2]
        cases hpage : alloc_buffer_page st cached o' with
        | none =>
          rcases List.mem_cons.mp ho with h | h
          · subst h; exact absurd hpage hpg
          · exact ih ⟨o, h, hsz, hmx, hpg⟩
        | some p => simp

/-- The `err:` rollback walks the acquired list exactly once: the released
`(page, order)` pairs are precisely the acquired ones, in order, and each
release goes to the general allocator under the shrinker flag and into
the pool selected by `order_to_index` and the cacheability otherwise. -/
theorem rollback_loop_spec (shrinkerFlag cached : Bool) :
    ∀ (l : List Seg) (st : HeapState),
    ((rollback_loop st shrinkerFlag cached l).2.map (fun r => (r.pid, r.order)) =
      l.map (fun s => (s.pid, s.order))) ∧
    (∀ r ∈ (rollback_loop st shrinkerFlag cached l).2,
      r.target = (if shrinkerFlag then FreeTarget.direct
        else match order_to_index r.order with
          | some i => FreeTarget.pool cached i
          | none => FreeTarget.bug)) := by
  intro l
  induction l with
  | nil => intro st; exact ⟨rfl, by simp [rollback_loop]⟩
  | cons s rest ih =>
    intro st
    unfold rollback_loop
    obtain ⟨ih1, ih2⟩ := ih (free_buffer_page st shrinkerFlag cached s.pid s.order).1
    constructor
    · simp only [List.map_cons, ih1, List.cons.injEq, and_true]
      unfold free_buffer_page
      split
      · rfl
      · split <;> rfl
    · intro r hr
      simp only [List.mem_cons] at hr
      rcases hr with hr | hr
      · subst hr
        unfold free_buffer_page
        by_cases hf : shrinkerFlag
        · simp [hf]
        · simp only [Bool.not_eq_true] at hf
          subst hf
          simp only [Bool.false_eq_true, if_false]
          cases hidx : order_to_index s.order <;> simp [hidx]
      · exact ih2 r hr

/-- A successful `ion_system_heap_allocate` comes from a successful run of
the assembly loop started at `PAGE_ALIGN size` with the largest
configured order. -/
theorem allocate_ok_loop {totalram : Nat} {st : HeapState} {size align : Nat}
    {cached shrinkerFlag tOk : Bool} {segs : List Seg} {st' : HeapState}
    (h : ion_system_heap_allocate totalram st size align cached shrinkerFlag tOk =
          AllocOutcome.ok segs st') :
    allocLoop cached (PAGE_ALIGN size / PAGE_SIZE) (PAGE_ALIGN size)
      (orders.headD 0) st [] = LoopRes.ok segs st' := by
  unfold ion_system_heap_allocate at h
  split at h
  · exact absurd h (by simp)
  · split at h
    · exact absurd h (by simp)
    · split at h
      · rename_i segs0 st0 heq
        split at h
        · simp only [AllocOutcome.ok.injEq] at h
          obtain ⟨h1, h2⟩ := h
          subst h1
          subst h2
          exact heq
        · exact absurd h (by simp)
      · exact absurd h (by simp)
      · exact absurd h (by simp)

/-- The trace accumulator of the drain loop is a pure prefix. -/
theorem shrinkDrain_acc (n : Nat) :
    ∀ (idxs : List Nat) (st : HeapState) (f : Nat) (tr : List ShrinkCall),
    shrinkDrain n idxs st f tr =
      ((shrinkDrain n idxs st f []).1, (shrinkDrain n idxs st f []).2.1,
        tr ++ (shrinkDrain n idxs st f []).2.2) := by
  intro idxs
  induction idxs with
  | nil => intro st f tr; simp [shrinkDrain]
  | cons i rest ih =>
    intro st f tr
    unfold shrinkDrain
    split
    · simp
    · split
      · simp
      · simp only [List.nil_append]
        conv_lhs => rw [ih]
        conv_rhs => rw [ih]
        simp

/-- Invariant of the drain loop (started with an empty trace and a freed
count still below the target): every pool-shrink request passes the full
`nr_to_scan`; the visited pools are a prefix of the expanded index
sequence (uncached before cached at each class); every request is issued
while the cumulative freed count is below the target; the final freed
count is the initial one plus everything freed by the trace; and if the
drain stopped before visiting all pools then the target was met. -/
theorem shrinkDrain_spec (n : Nat) :
    ∀ (idxs : List Nat) (st : HeapState) (f0 : Nat), f0 < n →
    (∀ c ∈ (shrinkDrain n idxs st f0 []).2.2, c.requested = n) ∧
    (∃ rest, ((shrinkDrain n idxs st f0 []).2.2.map (fun c => (c.cached, c.idx))) ++ rest =
      expandIdxs idxs) ∧
    stopsAtTarget n f0 (shrinkDrain n idxs st f0 []).2.2 = true ∧
    (shrinkDrain n idxs st f0 []).2.1 =
      f0 + ((shrinkDrain n idxs st f0 []).2.2.map ShrinkCall.freed).sum ∧
    ((shrinkDrain n idxs st f0 []).2.2.length < (expandIdxs idxs).length →
      n ≤ (shrinkDrain n idxs st f0 []).2.1) := by
  intro idxs
  induction idxs with
  | nil =>
    intro st f0 hf0
    refine ⟨by simp [shrinkDrain], ⟨[], by simp [shrinkDrain, expandIdxs]⟩,
      by simp [shrinkDrain, stopsAtTarget], by simp [shrinkDrain], ?_⟩
    simp [shrinkDrain, expandIdxs]
  | cons i rest ih =>
    intro st f0 hf0
    unfold shrinkDrain
    split
    · rename_i hstop1
      refine ⟨?_, ⟨(true, i) :: expandIdxs rest, ?_⟩, ?_, ?_, ?_⟩
      · intro c hc
        simp only [List.nil_append, List.mem_singleton] at hc
        subst hc
        rfl
      · simp [expandIdxs]
      · simp [stopsAtTarget, hf0]
      · simp
      · intro _
        simpa using hstop1
    · rename_i hstop1
      split
      · rename_i hstop2
        refine ⟨?_, ⟨expandIdxs rest, ?_⟩, ?_, ?_, ?_⟩
        · intro c hc
          simp only [List.nil_append, List.mem_cons, List.mem_singleton,
            List.not_mem_nil, or_false] at hc
          rcases hc with hc | hc <;> (subst hc; rfl)
        · simp [expandIdxs]
        · have h1 : f0 + (shrinkPoolStep n st false i).2 < n := by omega
          simp [stopsAtTarget, hf0, h1]
        · simp only [List.nil_append, List.map_cons, List.map_nil, List.sum_cons,
            List.sum_nil]
          omega
        · intro _
          simpa using hstop2
      · rename_i hstop2
        rw [shrinkDrain_acc]
        have hf2 : f0 + (shrinkPoolStep n st false i).2 +
            (shrinkPoolStep n (shrinkPoolStep n st false i).1 true i).2 < n := by omega
        obtain ⟨ih1, ⟨r2, ih2⟩, ih3, ih4, ih5⟩ := ih _ _ hf2
        refine ⟨?_, ⟨r2, ?_⟩, ?_, ?_, ?_⟩
        · intro c hc
          simp only [List.nil_append, List.cons_append, List.mem_cons] at hc
          rcases hc with hc | hc | hc
          · subst hc; rfl
          · subst hc; rfl
          · exact ih1 c hc
        · simp only [List.nil_append, List.cons_append, List.map_cons, expandIdxs,
            List.append_assoc] at ih2 ⊢
          rw [List.cons.injEq, List.cons.injEq]
          exact ⟨rfl, rfl, ih2⟩
        · simp only [List.nil_append, List.cons_append, stopsAtTarget, Bool.and_eq_true,
            decide_eq_true_eq]
          exact ⟨hf0, by omega, ih3⟩
        · simp only [List.nil_append, List.cons_append, List.map_cons, List.sum_cons]
          omega
        · intro hlen
          simp only [List.nil_append, List.cons_append, List.length_cons, expandIdxs,
            List.length_cons] at hlen
          exact ih5 (by omega)

/-- The source-side inventory pass computes exactly the spec-side total
resident count. -/
theorem shrinkInventory_eq_totalResident (st : HeapState) :
    shrinkInventory st = totalResident st := by
  simp [shrinkInventory, totalResident, ion_page_pool_shrink]

/-- `flsAux b n` bounds: whenever the fuel covers `n`, `n < 2 ^ flsAux b n`. -/
theorem flsAux_lt : ∀ (b n : Nat), n ≤ b → n < 2 ^ flsAux b n := by
  intro b
  induction b with
  | zero =>
    intro n hn
    have h0 : n = 0 := by omega
    subst h0
    simp [flsAux]
  | succ b ih =>
    intro n hn
    unfold flsAux
    by_cases h0 : n = 0
    · subst h0; simp
    · rw [if_neg h0]
      have hhalf : n / 2 ≤ b := by omega
      have hlt := ih (n / 2) hhalf
      have hpow : 2 ^ (flsAux b (n / 2) + 1) = 2 * 2 ^ flsAux b (n / 2) := by
        rw [pow_succ]; omega
      rw [hpow]
      omega

/-- `n < 2 ^ fls n`. -/
theorem lt_two_pow_fls (n : Nat) : n < 2 ^ fls n := flsAux_lt n n (le_refl n)

/-- `get_order` covers: for a positive length, the run of `2 ^ get_order
len` pages is at least `len` bytes. -/
theorem le_shiftLeft_get_order {len : Nat} (h : 0 < len) :
    len ≤ PAGE_SIZE <<< get_order len := by
  have hP : PAGE_SIZE = 4096 := by decide
  have hsh : (len - 1) >>> PAGE_SHIFT = (len - 1) / 4096 := by
    rw [Nat.shiftRight_eq_div_pow]
    norm_num [PAGE_SHIFT]
  have hfl := lt_two_pow_fls ((len - 1) / 4096)
  unfold get_order
  rw [hsh, Nat.shiftLeft_eq, hP]
  omega

/-- If every scatterlist entry's length maps back into the order table, the
free loop never reaches the `BUG()` target. -/
theorem free_loop_no_bug (shrinkerFlag cached : Bool) :
    ∀ (l : List BufSeg) (st : HeapState),
    (∀ s ∈ l, (order_to_index (get_order s.len)).isSome = true) →
    ∀ r ∈ (free_loop st shrinkerFlag cached l).2, r.target ≠ FreeTarget.bug := by
  intro l
  induction l with
  | nil => intro st _ r hr; simp [free_loop] at hr
  | cons s rest ih =>
    intro st hw r hr
    unfold free_loop at hr
    simp only [List.mem_cons] at hr
    rcases hr with hr | hr
    · subst hr
      unfold free_buffer_page
      by_cases hf : shrinkerFlag
      · simp [hf]
      · simp only [Bool.not_eq_true] at hf
        subst hf
        simp only [Bool.false_eq_true, if_false]
        have hsome := hw s (List.mem_cons_self s rest)
        cases hidx : order_to_index (get_order s.len) with
        | none => rw [hidx] at hsome; simp at hsome
        | some i => simp [hidx]
    · exact ih _ (fun x hx => hw x (List.mem_cons_of_mem _ hx)) r hr

/-- The free loop emits, for each scatterlist entry in order, one release
of the same page at order `get_order(length)`, sent to the general
allocator under the shrinker flag and to the pool selected by
`order_to_index` and the cacheability otherwise. -/
theorem free_loop_forall2 (shrinkerFlag cached : Bool) :
    ∀ (l : List BufSeg) (st : HeapState),
    (∀ s ∈ l, get_order s.len ∈ orders) →
    List.Forall₂ (fun (s : BufSeg) (r : Release) =>
        r.pid = s.pid ∧ r.order = get_order s.len ∧
        r.target = (if shrinkerFlag then FreeTarget.direct
          else FreeTarget.pool cached ((order_to_index (get_order s.len)).getD 0)))
      l (free_loop st shrinkerFlag cached l).2 := by
  intro l
  induction l with
  | nil => intro st _; exact List.Forall₂.nil
  | cons s rest ih =>
    intro st hw
    unfold free_loop
    refine List.Forall₂.cons ?_ (ih _ (fun x hx => hw x (List.mem_cons_of_mem _ hx)))
    unfold free_buffer_page
    by_cases hf : shrinkerFlag
    · simp [hf]
    · simp only [Bool.not_eq_true] at hf
      subst hf
      simp only [Bool.false_eq_true, if_false]
      have hsome := order_to_index_isSome (hw s (List.mem_cons_self s rest))
      cases hidx : order_to_index (get_order s.len) with
      | none => rw [hidx] at hsome; simp at hsome
      | some i => simp [hidx]

/-! ## Claim theorems -/

/-- C3 (amended): `ion_system_heap_allocate` returns the invalid-argument
error if and only if the alignment exceeds one page, and it returns the
out-of-memory error without acquiring any page (the state is returned
unchanged and nothing was acquired) when `size / PAGE_SIZE` (the size
truncated to whole pages, not rounded up) exceeds `totalram_pages / 2`. -/
theorem allocate_precondition_guards (totalram : Nat) (st : HeapState)
    (size align : Nat) (cached shrinkerFlag tOk : Bool) :
    (isInvalid (ion_system_heap_allocate totalram st size align cached shrinkerFlag tOk)
        = true ↔ PAGE_SIZE < align) ∧
    (align ≤ PAGE_SIZE → totalram / 2 < size / PAGE_SIZE →
      ion_system_heap_allocate totalram st size align cached shrinkerFlag tOk =
        AllocOutcome.nomem [] [] st) := by
  unfold ion_system_heap_allocate
  by_cases ha : PAGE_SIZE < align
  · rw [if_pos ha]
    exact ⟨by simp [isInvalid, ha], fun h1 _ => absurd ha (by omega)⟩
  · rw [if_neg ha]
    by_cases hb : totalram / 2 < size / PAGE_SIZE
    · rw [if_pos hb]
      exact ⟨by simp [isInvalid, ha], fun _ _ => rfl⟩
    · rw [if_neg hb]
      refine ⟨?_, fun _ h2 => absurd h2 hb⟩
      cases hloop : allocLoop cached (PAGE_ALIGN size / PAGE_SIZE) (PAGE_ALIGN size)
          (orders.headD 0) st [] with
      | ok s t =>
        by_cases ht : tOk
        · simp [ht, isInvalid, ha]
        · simp [ht, isInvalid, ha]
      | fail s t => simp [isInvalid, ha]
      | fuelOut s t => simp [isInvalid, ha]

/-- C3 witness: with 2 pages of total RAM, a request of 8192 bytes (2
pages) trips the size guard and fails with out-of-memory, acquiring
nothing. -/
theorem allocate_precondition_guards_witness :
    ion_system_heap_allocate 2 ⟨[0, 0, 0], [0, 0, 0], 0⟩ 8192 0 false false true =
      AllocOutcome.nomem [] [] ⟨[0, 0, 0], [0, 0, 0], 0⟩ :=
  (allocate_precondition_guards 2 ⟨[0, 0, 0], [0, 0, 0], 0⟩ 8192 0 false false true).2
    (by decide) (by decide)

/-- C3 counterexample: with 4 pages of total RAM, a request of 8193 bytes
page-aligns to 12288 bytes, which exceeds half of total system memory
(8192 bytes), yet the call does not fail: the guard compares the
truncated page count `size / PAGE_SIZE = 2` against `totalram / 2 = 2`,
lets the request through, and the allocation succeeds, acquiring three
pages — refuting "returns the out-of-memory error without acquiring any
page when the requested size, rounded up to a page boundary, exceeds half
of total system memory". -/
theorem allocate_size_guard_counterexample :
    PAGE_SIZE * 4 < 2 * PAGE_ALIGN 8193 ∧
    ion_system_heap_allocate 4 ⟨[0, 0, 3], [0, 0, 0], 0⟩ 8193 0 false false true =
      AllocOutcome.ok [⟨0, 0⟩, ⟨1, 0⟩, ⟨2, 0⟩] ⟨[0, 0, 0], [0, 0, 0], 3⟩ :=
  ⟨by decide, by decide⟩

/-- C4: `ion_system_heap_shrink` with `nr_to_scan = 0` frees nothing (the
pool state is unchanged) and returns the total resident page count across
every pool of both banks; with `nr_to_scan > 0` the returned value is the
total resident count of the post-drain state computed by the final
inventory pass, not the number of pages freed. -/
theorem shrink_reports_resident_not_freed (st : HeapState) (n : Nat) :
    (n = 0 → (ion_system_heap_shrink st n).1 = totalResident st ∧
      (ion_system_heap_shrink st n).2.1 = st) ∧
    (0 < n → (ion_system_heap_shrink st n).1 =
      totalResident ((ion_system_heap_shrink st n).2.1)) := by
  constructor
  · intro h0
    subst h0
    simp [ion_system_heap_shrink, shrinkInventory_eq_totalResident]
  · intro hn
    have hne : ¬ n = 0 := by omega
    simp [ion_system_heap_shrink, hne, shrinkInventory_eq_totalResident]

/-- C4 witness: shrinking a heap holding 3 resident pages with target 1
returns the resident count of the resulting state. -/
theorem shrink_reports_resident_not_freed_witness :
    (ion_system_heap_shrink ⟨[2, 0, 0], [0, 1, 0], 0⟩ 1).1 =
      totalResident ((ion_system_heap_shrink ⟨[2, 0, 0], [0, 1, 0], 0⟩ 1).2.1) :=
  (shrink_reports_resident_not_freed ⟨[2, 0, 0], [0, 1, 0], 0⟩ 1).2 (by decide)

/-- C2 (amended): for `nr_to_scan > 0` the drain phase visits the pools in
the fixed size-class order, largest class first, uncached bank before
cached bank at each class (its trace is a prefix of `drainOrder`); every
pool is asked to release up to the full `nr_to_scan` (not merely the
outstanding need); each request is issued only while the cumulative freed
count is still below the target (draining stops as soon as it meets or
exceeds `nr_to_scan`); and if the drain stopped before visiting every
pool then the target was met. -/
theorem shrink_drain_order_and_stop (st : HeapState) (n : Nat) (hn : 0 < n) :
    (∀ c ∈ (ion_system_heap_shrink st n).2.2, c.requested = n) ∧
    (∃ rest, ((ion_system_heap_shrink st n).2.2.map (fun c => (c.cached, c.idx))) ++ rest =
      drainOrder) ∧
    stopsAtTarget n 0 (ion_system_heap_shrink st n).2.2 = true ∧
    ((ion_system_heap_shrink st n).2.2.length < drainOrder.length →
      n ≤ ((ion_system_heap_shrink st n).2.2.map ShrinkCall.freed).sum) := by
  have hne : ¬ n = 0 := by omega
  obtain ⟨h1, ⟨r, h2⟩, h3, h4, h5⟩ := shrinkDrain_spec n (List.range num_orders) st 0 hn
  have hexp : expandIdxs (List.range num_orders) = drainOrder := by decide
  rw [hexp] at h2
  refine ⟨?_, ⟨r, ?_⟩, ?_, ?_⟩
  · intro c hc
    apply h1
    simpa [ion_system_heap_shrink, hne] using hc
  · simpa [ion_system_heap_shrink, hne] using h2
  · simpa [ion_system_heap_shrink, hne] using h3
  · intro hlen
    have hlen2 : (shrinkDrain n (List.range num_orders) st 0 []).2.2.length <
        (expandIdxs (List.range num_orders)).length := by
      rw [hexp]
      simpa [ion_system_heap_shrink, hne] using hlen
    have h6 := h5 hlen2
    rw [h4] at h6
    simpa [ion_system_heap_shrink, hne] using h6

/-- C2 witness: a drain with target 5 over pools holding 3 and 5 pages
stops as soon as the cumulative freed count reaches the target. -/
theorem shrink_drain_order_and_stop_witness :
    stopsAtTarget 5 0 (ion_system_heap_shrink ⟨[3, 0, 0], [5, 0, 0], 0⟩ 5).2.2 = true :=
  (shrink_drain_order_and_stop ⟨[3, 0, 0], [5, 0, 0], 0⟩ 5 (by decide)).2.2.1

/-- C2 counterexample: draining with target 5 over an uncached order-8 pool
holding 3 pages and a cached order-8 pool holding 5 pages asks the second
pool for the full 5 pages although the outstanding need is only 2 (and
consequently frees 8 pages in total) — refuting "each pool being asked to
release at most the outstanding need (target_count minus the pages
already freed in this call)". -/
theorem shrink_request_exceeds_outstanding_need :
    (ion_system_heap_shrink ⟨[3, 0, 0], [5, 0, 0], 0⟩ 5).2.2 =
      [⟨false, 0, 5, 3⟩, ⟨true, 0, 5, 5⟩] ∧
    boundedByNeed 5 0 (ion_system_heap_shrink ⟨[3, 0, 0], [5, 0, 0], 0⟩ 5).2.2 = false :=
  ⟨by decide, by decide⟩

/-- Properties of the rollback of an acquired list whose page ids are the
consecutive fresh ids and whose orders are configured size classes: the
released pairs are exactly the acquired ones, no page id is released
twice, and each release goes to the pool selected by `order_to_index` and
the cacheability (or directly to the general allocator under the shrinker
flag). -/
theorem rollback_result_props (shrinkerFlag cached : Bool) (l : List Seg)
    (st0 : HeapState) (n0 : Nat) (hpid : l.map Seg.pid = List.range' n0 l.length)
    (hord : ∀ s ∈ l, s.order ∈ orders) :
    ((rollback_loop st0 shrinkerFlag cached l).2.map (fun r => (r.pid, r.order)) =
      l.map (fun s => (s.pid, s.order))) ∧
    (((rollback_loop st0 shrinkerFlag cached l).2.map Release.pid).Nodup) ∧
    (∀ r ∈ (rollback_loop st0 shrinkerFlag cached l).2,
      (order_to_index r.order).isSome = true ∧
      r.target = (if shrinkerFlag then FreeTarget.direct
        else FreeTarget.pool cached ((order_to_index r.order).getD 0))) := by
  obtain ⟨hmap, htgt⟩ := rollback_loop_spec shrinkerFlag cached l st0
  refine ⟨hmap, ?_, ?_⟩
  · have hpids : (rollback_loop st0 shrinkerFlag cached l).2.map Release.pid =
        l.map Seg.pid := by
      have hc := congrArg (List.map Prod.fst) hmap
      simpa [List.map_map, Function.comp] using hc
    have hlen : (rollback_loop st0 shrinkerFlag cached l).2.length = l.length := by
      have hc := congrArg List.length hmap
      simpa using hc
    rw [hpids, hpid]
    exact List.nodup_range' n0 l.length
  · intro r hr
    have hpair : (r.pid, r.order) ∈ l.map (fun s => (s.pid, s.order)) := by
      rw [← hmap]
      exact List.mem_map_of_mem _ hr
    obtain ⟨s, hs, hpo⟩ := List.mem_map.mp hpair
    have hro : s.order = r.order := congrArg Prod.snd hpo
    have hmem : r.order ∈ orders := by rw [← hro]; exact hord s hs
    have hsome := order_to_index_isSome hmem
    refine ⟨hsome, ?_⟩
    have htr := htgt r hr
    cases hidx : order_to_index r.order with
    | none => rw [hidx] at hsome; simp at hsome
    | some i =>
      rw [hidx] at htr
      rw [htr]
      by_cases hf : shrinkerFlag <;> simp [hf, hidx]

/-- C1: whenever `ion_system_heap_allocate` fails after acquiring at least
one page run (pool exhaustion mid-assembly or descriptor-table allocation
failure — both reported through the single uniform out-of-memory outcome
`AllocOutcome.nomem`), every acquired page is released exactly once: the
released `(page, order)` pairs are exactly the acquired ones, no page id
appears twice among the releases, and each release re-enters the pool of
its own order and cacheability (the pool it was acquired from), or goes
directly to the general allocator when the buffer carries the
shrinker-free flag. -/
theorem allocate_rollback_no_leak {totalram : Nat} {st : HeapState} {size align : Nat}
    {cached shrinkerFlag tOk : Bool} {acq : List Seg} {rels : List Release}
    {st' : HeapState}
    (h : ion_system_heap_allocate totalram st size align cached shrinkerFlag tOk =
          AllocOutcome.nomem acq rels st')
    (hk : 1 ≤ acq.length) :
    rels.map (fun r => (r.pid, r.order)) = acq.map (fun s => (s.pid, s.order)) ∧
    (rels.map Release.pid).Nodup ∧
    (∀ r ∈ rels, (order_to_index r.order).isSome = true ∧
      r.target = (if shrinkerFlag then FreeTarget.direct
        else FreeTarget.pool cached ((order_to_index r.order).getD 0))) := by
  obtain ⟨hpid, hords, -, -⟩ := allocLoop_inv cached (PAGE_ALIGN size / PAGE_SIZE)
    (PAGE_ALIGN size) (orders.headD 0) st
  unfold ion_system_heap_allocate at h
  split at h
  · exact absurd h (by simp)
  · split at h
    · simp only [AllocOutcome.nomem.injEq] at h
      obtain ⟨h1, -, -⟩ := h
      rw [← h1] at hk
      simp at hk
    · split at h
      · rename_i segs0 st0 heq
        split at h
        · exact absurd h (by simp)
        · simp only [AllocOutcome.nomem.injEq] at h
          obtain ⟨h1, h2, -⟩ := h
          subst h1
          subst h2
          rw [heq] at hpid hords
          simp only [resAcquired] at hpid hords
          exact rollback_result_props shrinkerFlag cached _ st0 st.nextId hpid
            (fun s hs => (hords s hs).1)
      · rename_i acq0 st0 heq
        simp only [AllocOutcome.nomem.injEq] at h
        obtain ⟨h1, h2, -⟩ := h
        subst h1
        subst h2
        rw [heq] at hpid hords
        simp only [resAcquired] at hpid hords
        exact rollback_result_props shrinkerFlag cached _ st0 st.nextId hpid
          (fun s hs => (hords s hs).1)
      · rename_i acq0 st0 heq
        simp only [AllocOutcome.nomem.injEq] at h
        obtain ⟨h1, h2, -⟩ := h
        subst h1
        subst h2
        rw [heq] at hpid hords
        simp only [resAcquired] at hpid hords
        exact rollback_result_props shrinkerFlag cached _ st0 st.nextId hpid
          (fun s hs => (hords s hs).1)

/-- C1 witness: an allocation of 3 pages over a pool holding only 2 fails
and releases exactly the two acquired pages, in order. -/
theorem allocate_rollback_no_leak_witness :
    ([⟨0, 0, FreeTarget.pool false 2⟩, ⟨1, 0, FreeTarget.pool false 2⟩] :
        List Release).map (fun r => (r.pid, r.order)) =
      ([⟨0, 0⟩, ⟨1, 0⟩] : List Seg).map (fun s => (s.pid, s.order)) :=
  (@allocate_rollback_no_leak 1000 ⟨[0, 0, 2], [0, 0, 0], 0⟩ 12288 0 false false true
    [⟨0, 0⟩, ⟨1, 0⟩]
    [⟨0, 0, FreeTarget.pool false 2⟩, ⟨1, 0, FreeTarget.pool false 2⟩]
    ⟨[0, 0, 2], [0, 0, 0], 2⟩ (by decide) (by decide)).1

/-- C5: a successful `ion_system_heap_allocate` for `size > 0` with
`align <= PAGE_SIZE` returns segments (in allocation order, as assembled
by the loop) whose total byte length is at least `PAGE_ALIGN size` and
strictly less than `PAGE_ALIGN size` plus the byte size of the largest
configured class (in fact the total is exactly `PAGE_ALIGN size`). -/
theorem allocate_coverage {totalram : Nat} {st : HeapState} {size align : Nat}
    {cached shrinkerFlag tOk : Bool} {segs : List Seg} {st' : HeapState}
    (hsize : 0 < size) (halign : align ≤ PAGE_SIZE)
    (h : ion_system_heap_allocate totalram st size align cached shrinkerFlag tOk =
          AllocOutcome.ok segs st') :
    PAGE_ALIGN size ≤ (segs.map (fun s => order_to_size s.order)).sum ∧
    (segs.map (fun s => order_to_size s.order)).sum <
      PAGE_ALIGN size + order_to_size (orders.headD 0) := by
  have hloop := allocate_ok_loop h
  obtain ⟨-, -, -, hsum⟩ := allocLoop_inv cached (PAGE_ALIGN size / PAGE_SIZE)
    (PAGE_ALIGN size) (orders.headD 0) st
  have heq := hsum segs st' hloop
  rw [heq]
  have hpos : 0 < order_to_size (orders.headD 0) := by decide
  omega

/-- C5 witness: an 8192-byte request served from the single-page pool
covers exactly `PAGE_ALIGN 8192` bytes. -/
theorem allocate_coverage_witness :
    PAGE_ALIGN 8192 ≤ (([⟨0, 0⟩, ⟨1, 0⟩] : List Seg).map
      (fun s => order_to_size s.order)).sum :=
  (@allocate_coverage 1000 ⟨[0, 0, 2], [0, 0, 0], 0⟩ 8192 0 false false true
    [⟨0, 0⟩, ⟨1, 0⟩] ⟨[0, 0, 0], [0, 0, 0], 2⟩ (by decide) (by decide) (by decide)).1

/-- C6: in every successful `ion_system_heap_allocate`, the sequence of
segment orders, taken in allocation order, is non-increasing (after each
acquired run `max_order` is lowered to that run's order). -/
theorem allocate_orders_descending {totalram : Nat} {st : HeapState} {size align : Nat}
    {cached shrinkerFlag tOk : Bool} {segs : List Seg} {st' : HeapState}
    (h : ion_system_heap_allocate totalram st size align cached shrinkerFlag tOk =
          AllocOutcome.ok segs st') :
    List.Chain' (fun a b => b ≤ a) (segs.map Seg.order) := by
  have hloop := allocate_ok_loop h
  obtain ⟨-, -, hchain, -⟩ := allocLoop_inv cached (PAGE_ALIGN size / PAGE_SIZE)
    (PAGE_ALIGN size) (orders.headD 0) st
  rw [hloop] at hchain
  simpa [resAcquired] using hchain

/-- C6 witness: a mixed allocation (one order-4 run followed by two
order-0 runs) has a non-increasing order sequence. -/
theorem allocate_orders_descending_witness :
    List.Chain' (fun a b => b ≤ a) (([⟨0, 4⟩, ⟨1, 0⟩, ⟨2, 0⟩] : List Seg).map Seg.order) :=
  @allocate_orders_descending 1000 ⟨[0, 1, 3], [0, 0, 0], 0⟩ 73728 0 false false true
    [⟨0, 4⟩, ⟨1, 0⟩, ⟨2, 0⟩] ⟨[0, 0, 1], [0, 0, 0], 3⟩ (by decide)

/-- C9: the assembly loop terminates — the size-class table is strictly
descending and contains order 0; with fuel covering one page per
iteration the loop never hits the fuel bound (each successful iteration
acquires a run of at least one page, strictly decreasing the remaining
byte count); and whenever at least one page remains and the order-0 pool
can yield a page, `alloc_largest_available` does not fail. -/
theorem allocate_loop_terminates (cached : Bool) (fuel rem maxO : Nat)
    (st : HeapState) (acc : List Seg) :
    List.Chain' (fun a b => b < a) orders ∧ 0 ∈ orders ∧
    (rem ≤ fuel * PAGE_SIZE → isFuelOut (allocLoop cached fuel rem maxO st acc) = false) ∧
    (∀ info st', alloc_largest_available st cached rem maxO = some (info, st') →
      PAGE_SIZE ≤ order_to_size info.order ∧ order_to_size info.order ≤ rem ∧
      rem - order_to_size info.order < rem) ∧
    (PAGE_SIZE ≤ rem → 0 < poolCount st cached 2 →
      alloc_largest_available st cached rem maxO ≠ none) := by
  refine ⟨by norm_num [orders, List.chain'_cons], by decide,
    allocLoop_no_fuelOut cached fuel rem maxO st acc, ?_, ?_⟩
  · intro info st' hs
    obtain ⟨-, hle, -, -, -⟩ := alloc_largest_available_some hs
    have hp := PAGE_SIZE_le_order_to_size info.order
    have hppos : 0 < PAGE_SIZE := by decide
    exact ⟨hp, hle, by omega⟩
  · intro hrem hpool
    apply alloc_largest_aux_progress
    refine ⟨0, by decide, ?_, Nat.zero_le _, ?_⟩
    · simpa [order_to_size, Nat.shiftLeft_zero] using hrem
    · unfold alloc_buffer_page
      have hidx : order_to_index 0 = some 2 := by decide
      rw [hidx]
      have hne : ¬ (bank st cached).getD 2 0 = 0 := by
        simpa [poolCount] using Nat.pos_iff_ne_zero.mp hpool
      show ion_page_pool_alloc st cached 2 ≠ none
      unfold ion_page_pool_alloc
      rw [if_neg hne]
      simp

/-- C9 witness: with fuel 3 a 12288-byte remainder is assembled without
hitting the fuel bound. -/
theorem allocate_loop_terminates_witness :
    isFuelOut (allocLoop false 3 12288 8 ⟨[0, 0, 3], [0, 0, 0], 0⟩ []) = false :=
  (allocate_loop_terminates false 3 12288 8 ⟨[0, 0, 3], [0, 0, 0], 0⟩ []).2.2.1 (by decide)

/-- C10: every segment of a successful allocation has an order from the
configured table `{8, 4, 0}`, so `order_to_index` succeeds on it (the
`BUG()` branch is unreachable), `get_order` of its byte length recovers
exactly its order, and freeing the assembled buffer never reaches the
`BUG()` release target. -/
theorem allocate_orders_in_table {totalram : Nat} {st : HeapState} {size align : Nat}
    {cached shrinkerFlag tOk : Bool} {segs : List Seg} {st' : HeapState}
    (h : ion_system_heap_allocate totalram st size align cached shrinkerFlag tOk =
          AllocOutcome.ok segs st') :
    (∀ s ∈ segs, s.order ∈ orders ∧ (order_to_index s.order).isSome = true ∧
      get_order (order_to_size s.order) = s.order) ∧
    (∀ r ∈ (ion_system_heap_free st'
        ⟨segs.map (fun s => ⟨s.pid, order_to_size s.order⟩), cached, false⟩).releases,
      r.target ≠ FreeTarget.bug) := by
  have hloop := allocate_ok_loop h
  obtain ⟨-, hords, -, -⟩ := allocLoop_inv cached (PAGE_ALIGN size / PAGE_SIZE)
    (PAGE_ALIGN size) (orders.headD 0) st
  rw [hloop] at hords
  simp only [resAcquired] at hords
  have hmain : ∀ s ∈ segs, s.order ∈ orders ∧ (order_to_index s.order).isSome = true ∧
      get_order (order_to_size s.order) = s.order := by
    intro s hs
    have hmem := (hords s hs).1
    have h3 : s.order = 8 ∨ s.order = 4 ∨ s.order = 0 := by simpa [orders] using hmem
    refine ⟨hmem, order_to_index_isSome hmem, ?_⟩
    rcases h3 with h3 | h3 | h3 <;> rw [h3] <;> decide
  refine ⟨hmain, ?_⟩
  have harg : ∀ b ∈ segs.map (fun s => (⟨s.pid, order_to_size s.order⟩ : BufSeg)),
      (order_to_index (get_order b.len)).isSome = true := by
    intro b hb
    obtain ⟨s, hs, hbs⟩ := List.mem_map.mp hb
    obtain ⟨-, hsome, hgo⟩ := hmain s hs
    rw [← hbs]
    simpa [hgo] using hsome
  intro r hr
  have hr2 : r ∈ (free_loop st' false cached
      (segs.map (fun s => ⟨s.pid, order_to_size s.order⟩))).2 := by
    simpa [ion_system_heap_free] using hr
  exact free_loop_no_bug false cached _ st' harg r hr2

/-- C10 witness: the order-8 segment of a one-run allocation lies in the
order table and `get_order` of its length recovers 8. -/
theorem allocate_orders_in_table_witness :
    (⟨0, 8⟩ : Seg).order ∈ orders ∧ (order_to_index (⟨0, 8⟩ : Seg).order).isSome = true ∧
      get_order (order_to_size (⟨0, 8⟩ : Seg).order) = (⟨0, 8⟩ : Seg).order :=
  (@allocate_orders_in_table 1000 ⟨[1, 0, 0], [0, 0, 0], 0⟩ 1048576 0 false false true
    [⟨0, 8⟩] ⟨[0, 0, 0], [0, 0, 0], 1⟩ (by decide)).1 ⟨0, 8⟩ (by decide)

/-- C7: `ion_system_heap_free` zeroes the buffer whenever it is not marked
shrinker-originated (in particular for every non-cacheable, non-shrinker
buffer), and returns each page run to the pool matching its
(order, cacheability) — order recomputed as `get_order` of the run's
length — except that a shrinker-originated buffer has every run released
directly to the general-purpose allocator. -/
theorem free_zeroes_and_returns_to_pools (st : HeapState) (b : Buffer)
    (hw : ∀ s ∈ b.segs, s.len = order_to_size (get_order s.len) ∧
      get_order s.len ∈ orders) :
    (b.cached = false → b.shrinkerFlag = false →
      (ion_system_heap_free st b).zeroed = true) ∧
    List.Forall₂ (fun (s : BufSeg) (r : Release) =>
        r.pid = s.pid ∧ r.order = get_order s.len ∧
        r.target = (if b.shrinkerFlag then FreeTarget.direct
          else FreeTarget.pool b.cached ((order_to_index (get_order s.len)).getD 0)))
      b.segs (ion_system_heap_free st b).releases := by
  constructor
  · intro _ hsf
    simp [ion_system_heap_free, hsf]
  · have hf := free_loop_forall2 b.shrinkerFlag b.cached b.segs st
      (fun s hs => (hw s hs).2)
    simpa [ion_system_heap_free] using hf

/-- C7 witness: freeing an uncached, non-shrinker single-page buffer
zeroes it. -/
theorem free_zeroes_and_returns_to_pools_witness :
    (ion_system_heap_free ⟨[0, 0, 0], [0, 0, 0], 0⟩
      ⟨[⟨7, 4096⟩], false, false⟩).zeroed = true :=
  (free_zeroes_and_returns_to_pools ⟨[0, 0, 0], [0, 0, 0], 0⟩
    ⟨[⟨7, 4096⟩], false, false⟩ (by decide)).1 rfl rfl

/-- C8: `ion_system_contig_heap_allocate` rejects as invalid-argument
exactly the alignments greater than the power-of-two run size implied by
`len`; on success the descriptor has a single segment of exactly
`PAGE_ALIGN len` bytes, and the retained pages plus the pages trimmed
back to the general allocator account for the whole power-of-two run. -/
theorem contig_allocate_trims (len align : Nat) (pageAllocOk tableAllocOk : Bool)
    (hlen : 0 < len) :
    ((ion_system_contig_heap_allocate len align pageAllocOk tableAllocOk =
        ContigOutcome.invalid) ↔ PAGE_SIZE <<< get_order len < align) ∧
    (∀ (seg_lens : List Nat) (trimmed : Nat),
      ion_system_contig_heap_allocate len align pageAllocOk tableAllocOk =
        ContigOutcome.ok seg_lens trimmed →
      seg_lens = [PAGE_ALIGN len] ∧
      PAGE_ALIGN len / PAGE_SIZE + trimmed = 1 <<< get_order len) := by
  have hcov := le_shiftLeft_get_order hlen
  have hP : PAGE_SIZE = 4096 := by decide
  unfold ion_system_contig_heap_allocate
  by_cases hi : PAGE_SIZE <<< get_order len < align
  · rw [if_pos hi]
    exact ⟨by simp [hi], fun _ _ hok => absurd hok (by simp)⟩
  · rw [if_neg hi]
    cases pageAllocOk with
    | false =>
      refine ⟨by simp [hi], fun _ _ hok => absurd hok (by simp)⟩
    | true =>
      cases tableAllocOk with
      | false =>
        refine ⟨by simp [hi], fun _ _ hok => absurd hok (by simp)⟩
      | true =>
        refine ⟨by simp [hi], ?_⟩
        intro seg_lens trimmed hok
        simp only [Bool.not_true, Bool.false_eq_true, if_false,
          ContigOutcome.ok.injEq] at hok
        obtain ⟨h1, h2⟩ := hok
        refine ⟨h1.symm, ?_⟩
        rw [← h2]
        have hsh : PAGE_ALIGN len >>> PAGE_SHIFT = PAGE_ALIGN len / PAGE_SIZE := by
          rw [Nat.shiftRight_eq_div_pow]
          norm_num [PAGE_SHIFT, hP]
        rw [hsh]
        have hg : (1 : Nat) <<< get_order len = 2 ^ get_order len := by
          rw [Nat.shiftLeft_eq, one_mul]
        have hg2 : PAGE_SIZE <<< get_order len = 4096 * 2 ^ get_order len := by
          rw [Nat.shiftLeft_eq, hP]
        rw [hg2] at hcov
        rw [hg]
        rw [PAGE_ALIGN, hP]
        omega

/-- C8 witness: an 8193-byte contiguous request with page alignment yields
a single 12288-byte segment; the retained 3 pages plus the 1 trimmed page
make up the order-2 run of 4 pages. -/
theorem contig_allocate_trims_witness :
    ([12288] : List Nat) = [PAGE_ALIGN 8193] ∧
    PAGE_ALIGN 8193 / PAGE_SIZE + 1 = 1 <<< get_order 8193 :=
  (contig_allocate_trims 8193 4096 true true (by decide)).2 [12288] 1 (by decide)

end IonHeap
